import Mathlib

/-!
Verification of the kata-scaffolding repository's remote-tree traversal
(`src/kata/github/repo.py`, class `Repo`) and kata-initialization service
(`src/kata/domain/services.py`, class `InitKataService`) against its
natural-language specification.

The remote GitHub tree is modelled as a rose tree (`RTree`): a node is either
a directory whose listing succeeds, carrying the directory entries exactly as
`Api.contents` would return them (each paired with the subtree reachable
through it), or a node whose listing call raises a `RemoteLookupError`.
Python exceptions are modelled with `Except`; dictionaries returned by the
API are modelled by the `Dirent` structure.
-/

/-- An error raised by a single directory-listing call of the API client
(`Api.contents`). The API client is outside the traversal code; the traversal
never inspects the error, so its payload is an opaque message. -/
structure RemoteLookupError where
  msg : String
deriving DecidableEq, Repr

/-- One dictionary of a directory listing as returned by `Api.contents`:
the fields of the GitHub contents API that `Repo` reads
(`entry['type']`, `entry['name']`, `entry['path']`, `entry['download_url']`).
`download_url` is `none` when the JSON field is `null` (directories). -/
structure Dirent where
  type : String
  name : String
  path : String
  download_url : Option String
deriving DecidableEq, Repr

/-- A remote tree: the behaviour of `Api.contents` on a directory and
everything below it. `err` is a directory whose listing raises
`RemoteLookupError`; `node` is a directory whose listing returns the given
entries, each paired with the subtree the traversal would find below it
(meaningful only for entries of type `"dir"`; for other entries the paired
subtree is never visited). -/
inductive RTree : Type where
  | err  : RemoteLookupError → RTree
  | node : List (Dirent × RTree) → RTree

/-- `f"{dir_path}/{sub_dir['name']}".lstrip('/')` on the character list:
Python's `str.lstrip('/')` removes every leading `'/'`. -/
def dropLeadingSlashes : List Char → List Char
  | [] => []
  | c :: cs => if c = '/' then dropLeadingSlashes cs else c :: cs

/-- The sub-directory path construction of `get_files_in_all_sub_dirs_async`
(repo.py line 31): `f"{dir_path}/{sub_dir['name']}".lstrip('/')`. -/
def sub_dir_path (dir_path name : String) : String :=
  ⟨dropLeadingSlashes (dir_path ++ "/" ++ name).data⟩

mutual
/-- `Repo.get_files_in_dir` (repo.py lines 24-45). Lists `dir_path` via the
API (in the model: looks at the tree node), keeps the entries of type
`"file"`, and appends the recursively collected files of every entry of type
`"dir"`. A `RemoteLookupError` raised by any listing propagates (a future's
`.result()` re-raises the exception of the submitted call). The Python code
concatenates sub-directory results in future-completion order, which is
scheduler-dependent; the model uses submission order, one fixed
interleaving of that nondeterminism. -/
def get_files_in_dir (user repo : String) :
    RTree → String → Except RemoteLookupError (List Dirent)
  | .err e, _ => .error e
  | .node entries, dir_path =>
    match get_files_in_all_sub_dirs user repo entries dir_path with
    | .error e => .error e
    | .ok sub_files => .ok ((entries.map Prod.fst).filter (fun d => d.type = "file") ++ sub_files)

/-- The loop body of `get_files_in_all_sub_dirs_async` (repo.py lines 28-40):
for every entry of type `"dir"` recurse at `sub_dir_path`, concatenate the
results; any failing recursive call makes the whole call fail (Python: the
failing future's `.result()` re-raises inside the `as_completed` loop).
Iterating all entries and skipping the non-`"dir"` ones is the code's
iteration over `filter_by_type(contents, 'dir')`. -/
def get_files_in_all_sub_dirs (user repo : String) :
    List (Dirent × RTree) → String → Except RemoteLookupError (List Dirent)
  | [], _ => .ok []
  | (d, sub) :: rest, dir_path =>
    if d.type = "dir" then
      match get_files_in_dir user repo sub (sub_dir_path dir_path d.name) with
      | .error e => .error e
      | .ok here =>
        match get_files_in_all_sub_dirs user repo rest dir_path with
        | .error e => .error e
        | .ok there => .ok (here ++ there)
    else get_files_in_all_sub_dirs user repo rest dir_path
end

/-- One output dictionary of `Repo.format_result` (repo.py lines 47-52):
`{'file_path': file['path'], 'download_url': file['download_url']}`. -/
structure FileDesc where
  file_path : String
  download_url : Option String
deriving DecidableEq, Repr

/-- `Repo.format_result` (repo.py lines 47-52). -/
def format_result (contents : List Dirent) : List FileDesc :=
  contents.map (fun file => ⟨file.path, file.download_url⟩)

/-- `Repo.file_urls` (repo.py lines 12-22): collect the files, then format. -/
def file_urls (user repo : String) (t : RTree) (path : String) :
    Except RemoteLookupError (List FileDesc) :=
  match get_files_in_dir user repo t path with
  | .error e => .error e
  | .ok files => .ok (format_result files)

mutual
/-- Every `"file"`-type entry reachable from the root by recursively
descending through the `"dir"`-type entries, collected in listing order with
files and sub-directory contents interleaved per entry. This is the
reachable-file set the completeness properties compare the traversal
against. -/
def allFiles : RTree → List Dirent
  | .err _ => []
  | .node entries => allFilesEntries entries

def allFilesEntries : List (Dirent × RTree) → List Dirent
  | [] => []
  | (d, sub) :: rest =>
    (if d.type = "file" then [d] else []) ++
      (if d.type = "dir" then allFiles sub else []) ++ allFilesEntries rest
end

mutual
/-- Whether some directory node reachable from the root (the root itself, or
a node reached through `"dir"`-type entries) has a failing listing call. -/
def hasErr : RTree → Bool
  | .err _ => true
  | .node entries => hasErrEntries entries

def hasErrEntries : List (Dirent × RTree) → Bool
  | [] => false
  | (d, sub) :: rest => (d.type = "dir" && hasErr sub) || hasErrEntries rest
end

mutual
/-- The `RemoteLookupError` values of all reachable failing listings. -/
def treeErrors : RTree → List RemoteLookupError
  | .err e => [e]
  | .node entries => treeErrorsEntries entries

def treeErrorsEntries : List (Dirent × RTree) → List RemoteLookupError
  | [] => []
  | (d, sub) :: rest =>
    (if d.type = "dir" then treeErrors sub else []) ++ treeErrorsEntries rest
end

mutual
/-- The `dir_path` arguments of every `Api.contents` listing call performed
while traversing the tree from the given root path, root first. Because no
cancellation exists (futures already submitted run to completion even when a
sibling fails), every reachable node is listed exactly once, whether or not
some listing fails. -/
def listedPaths : RTree → String → List String
  | .err _, dir_path => [dir_path]
  | .node entries, dir_path => dir_path :: listedPathsEntries entries dir_path

def listedPathsEntries : List (Dirent × RTree) → String → List String
  | [], _ => []
  | (d, sub) :: rest, dir_path =>
    (if d.type = "dir" then listedPaths sub (sub_dir_path dir_path d.name) else [])
      ++ listedPathsEntries rest dir_path
end

mutual
/-- The number of directory nodes reachable from the root. -/
def numNodes : RTree → Nat
  | .err _ => 1
  | .node entries => 1 + numNodesEntries entries

def numNodesEntries : List (Dirent × RTree) → Nat
  | [] => 0
  | (d, sub) :: rest => (if d.type = "dir" then numNodes sub else 0) + numNodesEntries rest
end

/-- `KataLanguage` (kata/domain/models.py, not under src/), as used by
services.py and its tests: a language with a `name`. -/
structure KataLanguage where
  name : String
deriving DecidableEq, Repr

/-- `KataTemplate` (kata/domain/models.py, not under src/), as used by
services.py and its tests: a `language` and an optional `template_name`
(`None` for a template living at the language root). -/
structure KataTemplate where
  language : KataLanguage
  template_name : Option String
deriving DecidableEq, Repr

/-- Python's `s.split(' ')` on the character list: splitting on every single
occurrence of the separator, so `''` ↦ `['']` and `'a  b'` ↦
`['a', '', 'b']`. -/
def split_on (sep : Char) : List Char → List (List Char)
  | [] => [[]]
  | c :: cs =>
    match split_on sep cs with
    | [] => []
    | w :: ws => if c = sep then [] :: w :: ws else (c :: w) :: ws

/-- The local `has_spaces` of `_validate_kata_name` (services.py 36-37):
`len(kata_name.split(' ')) > 1`. -/
def has_spaces (kata_name : String) : Bool :=
  (split_on ' ' kata_name.data).length > 1

/-- Whether `c` is matched by the regex character class `[_a-z]`. -/
def in_lower_or_underscore (c : Char) : Bool :=
  c = '_' || ('a' ≤ c && c ≤ 'z')

/-- `re.match(r'^[_a-z]*$', s)` is not None (services.py 44). `re.match`
anchors at the start of `s`; `$` (without `re.MULTILINE`) matches at the end
of the string or just before a newline that ends the string. So the pattern
matches iff every character of `s` is in `[_a-z]`, or `s` ends in a newline
and every character before that newline is in `[_a-z]`. -/
def re_match_lower (s : String) : Bool :=
  s.data.all in_lower_or_underscore ||
    (s.data.getLast? = some '\n' && s.data.dropLast.all in_lower_or_underscore)

/-- The exceptions `init_kata` can raise (kata/domain/exceptions.py is not
under src/; the payloads are the constructor arguments visible in
services.py). `remote` is a `RemoteLookupError` escaping from the tree
traversal. -/
inductive InitError where
  | fileNotFound (parent_dir : String)
  | invalidKataName (kata_name : String) (reason : Option String)
  | kataLanguageNotFound
  | kataTemplateTemplateNameNotFound
  | remote (e : RemoteLookupError)
deriving DecidableEq, Repr

/-- `InitKataService._validate_kata_name` (services.py 34-45). Python's
`if not kata_name:` is true exactly for the empty string. -/
def validate_kata_name (kata_name : String) : Except InitError Unit :=
  if kata_name = "" then .error (.invalidKataName kata_name (some "empty"))
  else if has_spaces kata_name then .error (.invalidKataName kata_name (some "contains spaces"))
  else if !re_match_lower kata_name then .error (.invalidKataName kata_name none)
  else .ok ()

/-- `InitKataService._get_kata_template` (services.py 47-71), with the two
data repositories (kata/data/repos.py, not under src/) abstracted as the
functions they provide: `lang_get` is `KataLanguageRepo.get` (`none` when
the language is unknown) and `templates_for` is
`KataTemplateRepo.get_for_language`. When exactly one template is available
it is returned; otherwise the first template whose `template_name` equals
the requested one (Python `==` on `Optional[str]`, so `None == None` holds)
is returned, or `KataTemplateTemplateNameNotFound` is raised. -/
def get_kata_template (lang_get : String → Option KataLanguage)
    (templates_for : KataLanguage → List KataTemplate)
    (template_language : String) (template_name : Option String) :
    Except InitError KataTemplate :=
  match lang_get template_language with
  | none => .error .kataLanguageNotFound
  | some kata_language =>
    match templates_for kata_language with
    | [t] => .ok t
    | templates_for_language =>
      match templates_for_language.find? (fun t => t.template_name = template_name) with
      | some t => .ok t
      | none => .error .kataTemplateTemplateNameNotFound

/-- `InitKataService._build_path` (services.py 73-78). Python's
`if kata_template.template_name:` is false both for `None` and for `""`. -/
def build_path (kata_template : KataTemplate) : String :=
  match kata_template.template_name with
  | some tn =>
    if tn = "" then kata_template.language.name
    else kata_template.language.name ++ "/" ++ tn
  | none => kata_template.language.name

/-- An observable call made by `init_kata` to its collaborators: the
template lookup (data repositories), the remote file-list fetch
(`GRepo.get_files_to_download`), and the download request
(`GRepo.download_files_at_location`, the step that creates the destination
directory and writes the files; GRepo, kata/domain/grepo.py, is not under
src/). -/
inductive Effect where
  | template_lookup
  | remote_call (user repo path : String)
  | download_at (kata_dir : String) (files : List FileDesc)
deriving DecidableEq, Repr

/-- `InitKataService.init_kata` (services.py 17-27), returning the ordered
trace of collaborator calls made and the error raised, if any.
`parent_dir_exists` models `parent_dir.exists()`; `user`/`repo` model
`config.KATA_GITHUB_REPO_USER` / `config.KATA_GITHUB_REPO_REPO`
(kata/config.py, not under src/). Modelled from the spec:
`GRepo.get_files_to_download` (not under src/) performs the section-4.2
tree traversal, i.e. `Repo.file_urls`, once with the built path, and
`GRepo.download_files_at_location` is the outbound download request of
section 6, which creates `kata_dir` and writes the files. -/
def init_kata (lang_get : String → Option KataLanguage)
    (templates_for : KataLanguage → List KataTemplate)
    (tree : RTree) (user repo : String)
    (parent_dir_exists : Bool) (parent_dir kata_name template_language : String)
    (template_name : Option String) : List Effect × Option InitError :=
  if !parent_dir_exists then ([], some (.fileNotFound parent_dir))
  else
    match validate_kata_name kata_name with
    | .error e => ([], some e)
    | .ok _ =>
      match get_kata_template lang_get templates_for template_language template_name with
      | .error e => ([.template_lookup], some e)
      | .ok kata_template =>
        let path := build_path kata_template
        match file_urls user repo tree path with
        | .error e => ([.template_lookup, .remote_call user repo path], some (.remote e))
        | .ok files_to_download =>
          let kata_dir := parent_dir ++ "/" ++ kata_name
          ([.template_lookup, .remote_call user repo path,
            .download_at kata_dir files_to_download], none)

/-- The file-type entries of one listing, as `get_files_in_dir` keeps them. -/
def files_of (entries : List (Dirent × RTree)) : List Dirent :=
  (entries.map Prod.fst).filter (fun d => d.type = "file")

/-- Whether a path string begins with the `'/'` character. -/
def has_leading_slash (s : String) : Bool :=
  decide (s.data.head? = some '/')

/-- The depth of a repository path: its number of `'/'`-separated segments,
with the repository root `""` at depth `0`. -/
def pathDepth (s : String) : Nat :=
  if s = "" then 0 else s.data.count '/' + 1

/-- Modelled from the spec: the section-3 `DirectoryEntry` invariant
guaranteed by the API client (kata/github/api.py, not under src/) for
file-type entries — the download URL is present and non-empty. -/
def file_url_ok (d : Dirent) : Bool :=
  match d.download_url with
  | some url => !(url = "")
  | none => false

theorem perm_shuffle {α : Type} (a b c d e : List α)
    (h1 : List.Perm b d) (h2 : List.Perm (a ++ c) e) :
    List.Perm (a ++ (b ++ c)) (d ++ e) := by
  have hc : List.Perm (a ++ b) (b ++ a) := List.perm_append_comm
  have h3 : List.Perm (a ++ b ++ c) (b ++ a ++ c) := hc.append_right c
  have h4 : List.Perm (b ++ (a ++ c)) (d ++ e) := h1.append h2
  have h5 : List.Perm (a ++ (b ++ c)) (b ++ (a ++ c)) := by
    simpa [List.append_assoc] using h3
  exact h5.trans h4

mutual
theorem get_files_in_dir_ok_perm (user repo : String) (t : RTree) (p : String)
    (h : hasErr t = false) :
    ∃ l, get_files_in_dir user repo t p = .ok l ∧ List.Perm l (allFiles t) := by
  cases t with
  | err e => simp [hasErr] at h
  | node entries =>
    have he : hasErrEntries entries = false := by simpa [hasErr] using h
    obtain ⟨l, hl, hperm⟩ := get_files_in_all_sub_dirs_ok_perm user repo entries p he
    refine ⟨files_of entries ++ l, ?_, ?_⟩
    · simp [get_files_in_dir, hl, files_of]
    · simpa [allFiles] using hperm

theorem get_files_in_all_sub_dirs_ok_perm (user repo : String)
    (entries : List (Dirent × RTree)) (p : String)
    (h : hasErrEntries entries = false) :
    ∃ l, get_files_in_all_sub_dirs user repo entries p = .ok l ∧
      List.Perm (files_of entries ++ l) (allFilesEntries entries) := by
  cases entries with
  | nil => exact ⟨[], rfl, by simp [files_of, allFilesEntries]⟩
  | cons head rest =>
    obtain ⟨d, sub⟩ := head
    have hsplit : (d.type = "dir" && hasErr sub) = false ∧ hasErrEntries rest = false := by
      simpa [hasErrEntries] using h
    by_cases hd : d.type = "dir"
    · have hsub : hasErr sub = false := by simpa [hd] using hsplit.1
      obtain ⟨ls, hls, permS⟩ :=
        get_files_in_dir_ok_perm user repo sub (sub_dir_path p d.name) hsub
      obtain ⟨lr, hlr, permR⟩ := get_files_in_all_sub_dirs_ok_perm user repo rest p hsplit.2
      refine ⟨ls ++ lr, ?_, ?_⟩
      · simp [get_files_in_all_sub_dirs, hd, hls, hlr]
      · have hdf : d.type ≠ "file" := by rw [hd]; decide
        have hfiles : files_of ((d, sub) :: rest) = files_of rest := by
          simp [files_of, hdf]
        have hall : allFilesEntries ((d, sub) :: rest) = allFiles sub ++ allFilesEntries rest := by
          simp [allFilesEntries, hd, hdf]
        rw [hfiles, hall]
        exact perm_shuffle (files_of rest) ls lr (allFiles sub) (allFilesEntries rest) permS permR
    · obtain ⟨lr, hlr, permR⟩ := get_files_in_all_sub_dirs_ok_perm user repo rest p hsplit.2
      refine ⟨lr, ?_, ?_⟩
      · simp [get_files_in_all_sub_dirs, hd, hlr]
      · by_cases hf : d.type = "file"
        · have hfiles : files_of ((d, sub) :: rest) = d :: files_of rest := by
            simp [files_of, hf]
          have hall : allFilesEntries ((d, sub) :: rest) = d :: allFilesEntries rest := by
            simp [allFilesEntries, hd, hf]
          rw [hfiles, hall, List.cons_append]
          exact permR.cons d
        · have hfiles : files_of ((d, sub) :: rest) = files_of rest := by
            simp [files_of, hf]
          have hall : allFilesEntries ((d, sub) :: rest) = allFilesEntries rest := by
            simp [allFilesEntries, hd, hf]
          rw [hfiles, hall]
          exact permR
end

mutual
theorem get_files_in_dir_err (user repo : String) (t : RTree) (p : String)
    (h : hasErr t = true) :
    ∃ e, get_files_in_dir user repo t p = .error e := by
  cases t with
  | err e => exact ⟨e, rfl⟩
  | node entries =>
    have he : hasErrEntries entries = true := by simpa [hasErr] using h
    obtain ⟨e, hsub⟩ := get_files_in_all_sub_dirs_err user repo entries p he
    exact ⟨e, by simp [get_files_in_dir, hsub]⟩

theorem get_files_in_all_sub_dirs_err (user repo : String)
    (entries : List (Dirent × RTree)) (p : String)
    (h : hasErrEntries entries = true) :
    ∃ e, get_files_in_all_sub_dirs user repo entries p = .error e := by
  cases entries with
  | nil => simp [hasErrEntries] at h
  | cons head rest =>
    obtain ⟨d, sub⟩ := head
    by_cases hd : d.type = "dir"
    · by_cases hsub : hasErr sub = true
      · obtain ⟨e, he⟩ := get_files_in_dir_err user repo sub (sub_dir_path p d.name) hsub
        exact ⟨e, by simp [get_files_in_all_sub_dirs, hd, he]⟩
      · have hrest : hasErrEntries rest = true := by
          simpa [hasErrEntries, hd, hsub] using h
        obtain ⟨ls, hls, _⟩ := get_files_in_all_sub_dirs_ok_perm user repo [] p rfl
        obtain ⟨l, hl, _⟩ := get_files_in_dir_ok_perm user repo sub (sub_dir_path p d.name)
          (Bool.not_eq_true _ ▸ hsub)
        obtain ⟨e, he⟩ := get_files_in_all_sub_dirs_err user repo rest p hrest
        exact ⟨e, by simp [get_files_in_all_sub_dirs, hd, hl, he]⟩
    · have hrest : hasErrEntries rest = true := by
        simpa [hasErrEntries, hd] using h
      obtain ⟨e, he⟩ := get_files_in_all_sub_dirs_err user repo rest p hrest
      exact ⟨e, by simp [get_files_in_all_sub_dirs, hd, he]⟩
end

mutual
theorem get_files_in_dir_err_mem (user repo : String) (t : RTree) (p : String)
    (e : RemoteLookupError) (h : get_files_in_dir user repo t p = .error e) :
    e ∈ treeErrors t := by
  cases t with
  | err e' =>
    have : e' = e := by simpa [get_files_in_dir] using h
    simp [treeErrors, this]
  | node entries =>
    cases hsub : get_files_in_all_sub_dirs user repo entries p with
    | error e' =>
      have : e' = e := by simpa [get_files_in_dir, hsub] using h
      have hm := get_files_in_all_sub_dirs_err_mem user repo entries p e (this ▸ hsub)
      simpa [treeErrors] using hm
    | ok l => simp [get_files_in_dir, hsub] at h

theorem get_files_in_all_sub_dirs_err_mem (user repo : String)
    (entries : List (Dirent × RTree)) (p : String) (e : RemoteLookupError)
    (h : get_files_in_all_sub_dirs user repo entries p = .error e) :
    e ∈ treeErrorsEntries entries := by
  cases entries with
  | nil => simp [get_files_in_all_sub_dirs] at h
  | cons head rest =>
    obtain ⟨d, sub⟩ := head
    by_cases hd : d.type = "dir"
    · cases hfirst : get_files_in_dir user repo sub (sub_dir_path p d.name) with
      | error e1 =>
        have : e1 = e := by simpa [get_files_in_all_sub_dirs, hd, hfirst] using h
        have hm := get_files_in_dir_err_mem user repo sub (sub_dir_path p d.name) e
          (this ▸ hfirst)
        simp [treeErrorsEntries, hd, hm]
      | ok ls =>
        cases hrest : get_files_in_all_sub_dirs user repo rest p with
        | error e2 =>
          have : e2 = e := by simpa [get_files_in_all_sub_dirs, hd, hfirst, hrest] using h
          have hm := get_files_in_all_sub_dirs_err_mem user repo rest p e (this ▸ hrest)
          simp [treeErrorsEntries, hm]
        | ok lr => simp [get_files_in_all_sub_dirs, hd, hfirst, hrest] at h
    · have h' : get_files_in_all_sub_dirs user repo rest p = .error e := by
        simpa [get_files_in_all_sub_dirs, hd] using h
      have hm := get_files_in_all_sub_dirs_err_mem user repo rest p e h'
      simp [treeErrorsEntries, hd, hm]
end

mutual
theorem listedPaths_length (t : RTree) (p : String) :
    (listedPaths t p).length = numNodes t := by
  cases t with
  | err e => simp [listedPaths, numNodes]
  | node entries =>
    simp [listedPaths, numNodes, listedPathsEntries_length entries p, Nat.add_comm]

theorem listedPathsEntries_length (entries : List (Dirent × RTree)) (p : String) :
    (listedPathsEntries entries p).length = numNodesEntries entries := by
  cases entries with
  | nil => simp [listedPathsEntries, numNodesEntries]
  | cons head rest =>
    obtain ⟨d, sub⟩ := head
    by_cases hd : d.type = "dir"
    · simp [listedPathsEntries, numNodesEntries, hd,
        listedPaths_length sub (sub_dir_path p d.name), listedPathsEntries_length rest p]
    · simp [listedPathsEntries, numNodesEntries, hd, listedPathsEntries_length rest p]
end

theorem dropLeadingSlashes_head (l : List Char) (c : Char) (cs : List Char)
    (h : dropLeadingSlashes l = c :: cs) : c ≠ '/' := by
  induction l with
  | nil => simp [dropLeadingSlashes] at h
  | cons a as ih =>
    by_cases ha : a = '/'
    · rw [dropLeadingSlashes, if_pos ha] at h
      exact ih h
    · rw [dropLeadingSlashes, if_neg ha] at h
      cases h
      exact ha

theorem dropLeadingSlashes_of_head_ne (l : List Char) (c : Char) (cs : List Char)
    (hl : l = c :: cs) (hc : c ≠ '/') : dropLeadingSlashes l = l := by
  subst hl
  rw [dropLeadingSlashes, if_neg hc]

theorem has_leading_slash_sub_dir_path (p n : String) :
    has_leading_slash (sub_dir_path p n) = false := by
  rw [has_leading_slash]
  have hdata : (sub_dir_path p n).data = dropLeadingSlashes (p ++ "/" ++ n).data := rfl
  rw [hdata]
  cases hres : dropLeadingSlashes (p ++ "/" ++ n).data with
  | nil => simp
  | cons c cs =>
    have hc := dropLeadingSlashes_head _ c cs hres
    simp [hc]

theorem string_mk_data (s : String) : String.mk s.data = s := by
  cases s
  rfl

theorem data_eq_nil_iff (s : String) : s.data = [] ↔ s = "" := by
  constructor
  · intro h
    have := string_mk_data s
    rw [h] at this
    exact this.symm
  · intro h
    simp [h]

theorem sub_dir_path_of_empty (n : String) (hn : has_leading_slash n = false) :
    sub_dir_path "" n = n := by
  have hdata : ("" ++ "/" ++ n).data = '/' :: n.data := by
    simp [String.data_append]
  have h1 : (sub_dir_path "" n).data = dropLeadingSlashes ('/' :: n.data) := by
    have : (sub_dir_path "" n).data = dropLeadingSlashes ("" ++ "/" ++ n).data := rfl
    rw [this, hdata]
  have h2 : dropLeadingSlashes ('/' :: n.data) = dropLeadingSlashes n.data := by
    rw [dropLeadingSlashes, if_pos rfl]
  have h3 : dropLeadingSlashes n.data = n.data := by
    cases hnd : n.data with
    | nil => rfl
    | cons c cs =>
      have hc : c ≠ '/' := by
        intro hc
        rw [has_leading_slash, hnd, hc] at hn
        simp at hn
      exact dropLeadingSlashes_of_head_ne _ c cs rfl hc
  have : (sub_dir_path "" n).data = n.data := by rw [h1, h2, h3]
  have := congrArg String.mk this
  rwa [string_mk_data, string_mk_data] at this

theorem sub_dir_path_of_no_slash (p n : String) (hp0 : p ≠ "")
    (hp : has_leading_slash p = false) :
    sub_dir_path p n = p ++ "/" ++ n := by
  obtain ⟨c, cs, hpd⟩ : ∃ c cs, p.data = c :: cs := by
    cases hpd : p.data with
    | nil => exact absurd ((data_eq_nil_iff p).mp hpd) hp0
    | cons c cs => exact ⟨c, cs, rfl⟩
  have hc : c ≠ '/' := by
    intro hc
    rw [has_leading_slash, hpd, hc] at hp
    simp at hp
  have hdata : (p ++ "/" ++ n).data = c :: (cs ++ '/' :: n.data) := by
    simp [String.data_append, hpd]
  have h1 : (sub_dir_path p n).data = (p ++ "/" ++ n).data := by
    have : (sub_dir_path p n).data = dropLeadingSlashes (p ++ "/" ++ n).data := rfl
    rw [this, hdata]
    exact dropLeadingSlashes_of_head_ne _ c _ rfl hc
  have := congrArg String.mk h1
  rwa [string_mk_data, string_mk_data] at this

mutual
theorem listedPaths_no_slash (t : RTree) (p : String)
    (hp : has_leading_slash p = false) :
    ∀ q ∈ listedPaths t p, has_leading_slash q = false := by
  cases t with
  | err e =>
    intro q hq
    have : q = p := by simpa [listedPaths] using hq
    rwa [this]
  | node entries =>
    intro q hq
    rw [listedPaths, List.mem_cons] at hq
    cases hq with
    | inl h => rwa [h]
    | inr h => exact listedPathsEntries_no_slash entries p q h

theorem listedPathsEntries_no_slash (entries : List (Dirent × RTree)) (p : String) :
    ∀ q ∈ listedPathsEntries entries p, has_leading_slash q = false := by
  cases entries with
  | nil => intro q hq; simp [listedPathsEntries] at hq
  | cons head rest =>
    obtain ⟨d, sub⟩ := head
    intro q hq
    rw [listedPathsEntries, List.mem_append] at hq
    cases hq with
    | inl h =>
      by_cases hd : d.type = "dir"
      · rw [if_pos hd] at h
        exact listedPaths_no_slash sub (sub_dir_path p d.name)
          (has_leading_slash_sub_dir_path p d.name) q h
      · rw [if_neg hd] at h
        simp at h
    | inr h => exact listedPathsEntries_no_slash rest p q h
end

theorem pathDepth_sub_dir_path (p n : String) (hp : has_leading_slash p = false)
    (hn0 : n ≠ "") (hn : n.data.count '/' = 0) :
    pathDepth (sub_dir_path p n) = pathDepth p + 1 := by
  by_cases hp0 : p = ""
  · subst hp0
    have hnls : has_leading_slash n = false := by
      cases hnd : n.data with
      | nil => simp [has_leading_slash, hnd]
      | cons c cs =>
        have : c ∈ n.data := by rw [hnd]; exact List.mem_cons_self c cs
        have hcne : c ≠ '/' := by
          intro hc
          rw [hc] at this
          rw [List.count_eq_zero] at hn
          exact hn this
        simp [has_leading_slash, hnd, hcne]
    rw [sub_dir_path_of_empty n hnls]
    simp [pathDepth, hn0, hn]
  · rw [sub_dir_path_of_no_slash p n hp0 hp]
    have happ : (p ++ "/" ++ n) ≠ "" := by
      intro h
      have := (data_eq_nil_iff _).mpr h
      simp [String.data_append] at this
    have hcount : (p ++ "/" ++ n).data.count '/' = p.data.count '/' + 1 := by
      simp [String.data_append, List.count_append, hn]
    simp [pathDepth, happ, hp0, hcount]
    omega

theorem no_dirs_flat (user repo : String) (entries : List (Dirent × RTree)) (p : String)
    (h : ∀ e ∈ entries, (Prod.fst e).type ≠ "dir") :
    get_files_in_all_sub_dirs user repo entries p = .ok [] ∧
      listedPathsEntries entries p = [] := by
  induction entries with
  | nil => exact ⟨rfl, rfl⟩
  | cons head rest ih =>
    obtain ⟨d, sub⟩ := head
    have hd : d.type ≠ "dir" := h (d, sub) (List.mem_cons_self _ _)
    have hrest := ih (fun e he => h e (List.mem_cons_of_mem _ he))
    constructor
    · simp [get_files_in_all_sub_dirs, hd, hrest.1]
    · simp [listedPathsEntries, hd, hrest.2]

theorem split_on_length (sep : Char) (l : List Char) :
    (split_on sep l).length = l.count sep + 1 := by
  induction l with
  | nil => simp [split_on]
  | cons c cs ih =>
    cases hs : split_on sep cs with
    | nil => rw [hs] at ih; simp at ih
    | cons w ws =>
      rw [hs] at ih
      by_cases hc : c = sep
      · rw [split_on, hs]
        show (if c = sep then [] :: w :: ws else (c :: w) :: ws).length
          = (c :: cs).count sep + 1
        rw [if_pos hc]
        simp only [List.length_cons] at ih ⊢
        rw [List.count_cons]
        simp [hc]
        omega
      · rw [split_on, hs]
        show (if c = sep then [] :: w :: ws else (c :: w) :: ws).length
          = (c :: cs).count sep + 1
        rw [if_neg hc]
        simp only [List.length_cons] at ih ⊢
        rw [List.count_cons]
        simp [hc]
        omega

theorem has_spaces_iff (s : String) : has_spaces s = true ↔ ' ' ∈ s.data := by
  rw [has_spaces]
  rw [decide_eq_true_iff]
  rw [split_on_length]
  constructor
  · intro h
    by_contra hmem
    rw [← List.count_eq_zero] at hmem
    omega
  · intro h
    have : s.data.count ' ' ≠ 0 := by
      intro h0
      rw [List.count_eq_zero] at h0
      exact h0 h
    omega

theorem re_match_of_all (s : String) (h : s.data.all in_lower_or_underscore = true) :
    re_match_lower s = true := by
  simp [re_match_lower, h]

theorem re_match_false_of_bad_char (s : String) (c : Char) (hc : c ∈ s.data)
    (hbad : in_lower_or_underscore c = false) (hnl : c ≠ '\n') :
    re_match_lower s = false := by
  rw [re_match_lower]
  have h1 : s.data.all in_lower_or_underscore = false := by
    rw [List.all_eq_false]
    exact ⟨c, hc, by simp [hbad]⟩
  rw [h1]
  simp only [Bool.false_or]
  cases hlast : s.data.getLast? with
  | none => simp
  | some x =>
    by_cases hx : x = '\n'
    · have hne : s.data ≠ [] := by
        intro hn
        rw [hn] at hlast
        simp at hlast
      have hdecomp : s.data.dropLast ++ [x] = s.data := by
        have h2 := List.dropLast_append_getLast hne
        rwa [(List.getLast_eq_iff_getLast?_eq_some hne).mpr hlast] at h2
      have hcd : c ∈ s.data.dropLast := by
        have : c ∈ s.data.dropLast ++ [x] := by rw [hdecomp]; exact hc
        rw [List.mem_append] at this
        cases this with
        | inl h => exact h
        | inr h =>
          simp at h
          rw [h, hx] at hnl
          exact absurd rfl hnl
      have h2 : s.data.dropLast.all in_lower_or_underscore = false := by
        rw [List.all_eq_false]
        exact ⟨c, hcd, by simp [hbad]⟩
      simp [h2]
    · simp [hx]

theorem validate_err_shape (kn : String) (e : InitError)
    (h : validate_kata_name kn = .error e) :
    ∃ r', e = .invalidKataName kn r' := by
  rw [validate_kata_name] at h
  by_cases h0 : kn = ""
  · rw [if_pos h0] at h
    exact ⟨some "empty", by cases h; rfl⟩
  · rw [if_neg h0] at h
    by_cases h1 : has_spaces kn
    · rw [if_pos h1] at h
      exact ⟨some "contains spaces", by cases h; rfl⟩
    · rw [if_neg h1] at h
      by_cases h2 : !re_match_lower kn
      · rw [if_pos h2] at h
        exact ⟨none, by cases h; rfl⟩
      · rw [if_neg h2] at h
        cases h

theorem validate_err_iff (kn : String) :
    (∃ e, validate_kata_name kn = .error e) ↔
      (kn = "" ∨ ' ' ∈ kn.data ∨ re_match_lower kn = false) := by
  constructor
  · intro ⟨e, h⟩
    rw [validate_kata_name] at h
    by_cases h0 : kn = ""
    · exact Or.inl h0
    · rw [if_neg h0] at h
      by_cases h1 : has_spaces kn
      · exact Or.inr (Or.inl ((has_spaces_iff kn).mp h1))
      · rw [if_neg h1] at h
        by_cases h2 : !re_match_lower kn
        · exact Or.inr (Or.inr (by simpa using h2))
        · rw [if_neg h2] at h
          cases h
  · intro h
    rw [validate_kata_name]
    by_cases h0 : kn = ""
    · exact ⟨_, by rw [if_pos h0]⟩
    · rw [if_neg h0]
      by_cases h1 : has_spaces kn
      · exact ⟨_, by rw [if_pos h1]⟩
      · rw [if_neg h1]
        by_cases h2 : !re_match_lower kn
        · exact ⟨_, by rw [if_pos h2]⟩
        · exfalso
          cases h with
          | inl h => exact h0 h
          | inr h =>
            cases h with
            | inl h => exact h1 ((has_spaces_iff kn).mpr h)
            | inr h => simp [h] at h2

theorem validate_ok_of_lower (kn : String) (h0 : kn ≠ "")
    (h : kn.data.all in_lower_or_underscore = true) :
    validate_kata_name kn = .ok () := by
  have hsp : has_spaces kn = false := by
    rw [Bool.eq_false_iff]
    intro hs
    have hmem := (has_spaces_iff kn).mp hs
    have := List.all_eq_true.mp h ' ' hmem
    simp [in_lower_or_underscore] at this
  have hre : re_match_lower kn = true := re_match_of_all kn h
  rw [validate_kata_name, if_neg h0, hsp, if_neg (by simp), hre]
  simp

theorem get_kata_template_err_shape (lang_get : String → Option KataLanguage)
    (templates_for : KataLanguage → List KataTemplate)
    (template_language : String) (template_name : Option String) (e : InitError)
    (h : get_kata_template lang_get templates_for template_language template_name = .error e) :
    e = .kataLanguageNotFound ∨ e = .kataTemplateTemplateNameNotFound := by
  rw [get_kata_template] at h
  split at h
  · cases h
    exact Or.inl rfl
  · split at h
    · cases h
    · split at h
      · cases h
      · cases h
        exact Or.inr rfl

theorem init_kata_invalid_name (lang_get : String → Option KataLanguage)
    (templates_for : KataLanguage → List KataTemplate) (tree : RTree)
    (u r pd kn tl : String) (tn : Option String)
    (h : kn = "" ∨ ' ' ∈ kn.data ∨ re_match_lower kn = false) :
    ∃ r', init_kata lang_get templates_for tree u r true pd kn tl tn
      = ([], some (.invalidKataName kn r')) := by
  obtain ⟨e, hv⟩ := (validate_err_iff kn).mpr h
  obtain ⟨r', hr⟩ := validate_err_shape kn e hv
  exact ⟨r', by simp [init_kata, hv, hr]⟩

theorem init_kata_err_is_invalid_iff (lang_get : String → Option KataLanguage)
    (templates_for : KataLanguage → List KataTemplate) (tree : RTree)
    (u r pd kn tl : String) (tn : Option String) :
    (∃ r', (init_kata lang_get templates_for tree u r true pd kn tl tn).2
        = some (.invalidKataName kn r')) ↔
      (kn = "" ∨ ' ' ∈ kn.data ∨ re_match_lower kn = false) := by
  constructor
  · intro ⟨r', h⟩
    rw [← validate_err_iff]
    cases hv : validate_kata_name kn with
    | error e => exact ⟨e, rfl⟩
    | ok _ =>
      exfalso
      cases ht : get_kata_template lang_get templates_for tl tn with
      | error e =>
        have hshape := get_kata_template_err_shape lang_get templates_for tl tn e ht
        simp [init_kata, hv, ht] at h
        cases hshape with
        | inl hs => rw [hs] at h; cases h
        | inr hs => rw [hs] at h; cases h
      | ok kt =>
        cases hf : file_urls u r tree (build_path kt) with
        | error e => simp [init_kata, hv, ht, hf] at h
        | ok files => simp [init_kata, hv, ht, hf] at h
  · intro h
    obtain ⟨r', hinit⟩ := init_kata_invalid_name lang_get templates_for tree u r pd kn tl tn h
    exact ⟨r', by rw [hinit]⟩

theorem init_kata_trace_empty_of_invalid (lang_get : String → Option KataLanguage)
    (templates_for : KataLanguage → List KataTemplate) (tree : RTree)
    (u r pd kn tl : String) (tn : Option String)
    (h : kn = "" ∨ ' ' ∈ kn.data ∨ re_match_lower kn = false) :
    (init_kata lang_get templates_for tree u r true pd kn tl tn).1 = [] := by
  obtain ⟨r', hinit⟩ := init_kata_invalid_name lang_get templates_for tree u r pd kn tl tn h
  rw [hinit]

theorem init_kata_no_download_of_err (lang_get : String → Option KataLanguage)
    (templates_for : KataLanguage → List KataTemplate) (tree : RTree)
    (u r : String) (pdex : Bool) (pd kn tl : String) (tn : Option String)
    (htree : hasErr tree = true) :
    (∀ d fs, Effect.download_at d fs
        ∉ (init_kata lang_get templates_for tree u r pdex pd kn tl tn).1) ∧
      (init_kata lang_get templates_for tree u r pdex pd kn tl tn).2 ≠ none := by
  cases pdex with
  | false => simp [init_kata]
  | true =>
    cases hv : validate_kata_name kn with
    | error e => simp [init_kata, hv]
    | ok _ =>
      cases ht : get_kata_template lang_get templates_for tl tn with
      | error e => simp [init_kata, hv, ht]
      | ok kt =>
        obtain ⟨e, hge⟩ := get_files_in_dir_err u r tree (build_path kt) htree
        have hf : file_urls u r tree (build_path kt) = .error e := by
          simp [file_urls, hge]
        simp [init_kata, hv, ht, hf]

/-- C1: for every finite remote tree whose listings all succeed, `file_urls`
returns a sequence containing exactly one `FileDescriptor` for each
file-type `DirectoryEntry` reachable by recursively listing from the root
path — no duplicates, no omissions, and no directory entries in the output,
regardless of nesting depth or branching factor: the output is a permutation
of the formatted reachable-file entries. -/
theorem C1_collect_complete (user repo : String) (t : RTree) (path : String)
    (h : hasErr t = false) :
    ∃ l, file_urls user repo t path = .ok l ∧
      List.Perm l (format_result (allFiles t)) := by
  obtain ⟨l0, hl0, hperm⟩ := get_files_in_dir_ok_perm user repo t path h
  exact ⟨format_result l0, by simp [file_urls, hl0], hperm.map _⟩

theorem C1_collect_complete_witness :
    hasErr (.node [(⟨"file", "a.txt", "java/a.txt", some "urlA"⟩, .node []),
      (⟨"dir", "lib", "java/lib", none⟩,
        .node [(⟨"file", "b.jar", "java/lib/b.jar", some "urlB"⟩, .node [])])]) = false ∧
    ∃ l, file_urls "u" "r"
      (.node [(⟨"file", "a.txt", "java/a.txt", some "urlA"⟩, .node []),
        (⟨"dir", "lib", "java/lib", none⟩,
          .node [(⟨"file", "b.jar", "java/lib/b.jar", some "urlB"⟩, .node [])])]) "java"
      = .ok l ∧
      List.Perm l (format_result (allFiles
        (.node [(⟨"file", "a.txt", "java/a.txt", some "urlA"⟩, .node []),
          (⟨"dir", "lib", "java/lib", none⟩,
            .node [(⟨"file", "b.jar", "java/lib/b.jar", some "urlB"⟩, .node [])])]))) :=
  ⟨rfl, C1_collect_complete "u" "r" _ "java" rfl⟩

/-- C2: if the listing of any node of the tree (root or nested) fails, the
whole `file_urls` call fails with no partial result — even when sibling
branches succeeded — and `init_kata` on that tree performs no download
request (the call that would create the destination directory and write
files) and itself raises. -/
theorem C2_fail_fast (user repo : String) (tree : RTree) (path : String)
    (lang_get : String → Option KataLanguage)
    (templates_for : KataLanguage → List KataTemplate)
    (pdex : Bool) (pd kn tl : String) (tn : Option String)
    (htree : hasErr tree = true) :
    (∃ e, file_urls user repo tree path = .error e) ∧
      (∀ d fs, Effect.download_at d fs
        ∉ (init_kata lang_get templates_for tree user repo pdex pd kn tl tn).1) ∧
      (init_kata lang_get templates_for tree user repo pdex pd kn tl tn).2 ≠ none := by
  obtain ⟨e, hge⟩ := get_files_in_dir_err user repo tree path htree
  have hnd := init_kata_no_download_of_err lang_get templates_for tree
    user repo pdex pd kn tl tn htree
  exact ⟨⟨e, by simp [file_urls, hge]⟩, hnd.1, hnd.2⟩

theorem C2_fail_fast_witness :
    hasErr (.node [(⟨"file", "ok.txt", "java/ok.txt", some "url1"⟩, .node []),
      (⟨"dir", "good", "java/good", none⟩,
        .node [(⟨"file", "g.txt", "java/good/g.txt", some "url2"⟩, .node [])]),
      (⟨"dir", "bad", "java/bad", none⟩, .err ⟨"boom"⟩)]) = true ∧
    (∃ e, file_urls "u" "r"
      (.node [(⟨"file", "ok.txt", "java/ok.txt", some "url1"⟩, .node []),
        (⟨"dir", "good", "java/good", none⟩,
          .node [(⟨"file", "g.txt", "java/good/g.txt", some "url2"⟩, .node [])]),
        (⟨"dir", "bad", "java/bad", none⟩, .err ⟨"boom"⟩)]) "java" = .error e) ∧
      (∀ d fs, Effect.download_at d fs
        ∉ (init_kata (fun _ => some ⟨"java"⟩) (fun _ => [⟨⟨"java"⟩, some "junit5"⟩])
          (.node [(⟨"file", "ok.txt", "java/ok.txt", some "url1"⟩, .node []),
            (⟨"dir", "good", "java/good", none⟩,
              .node [(⟨"file", "g.txt", "java/good/g.txt", some "url2"⟩, .node [])]),
            (⟨"dir", "bad", "java/bad", none⟩, .err ⟨"boom"⟩)])
          "u" "r" true "parent" "my_kata" "java" (some "junit5")).1) ∧
      (init_kata (fun _ => some ⟨"java"⟩) (fun _ => [⟨⟨"java"⟩, some "junit5"⟩])
        (.node [(⟨"file", "ok.txt", "java/ok.txt", some "url1"⟩, .node []),
          (⟨"dir", "good", "java/good", none⟩,
            .node [(⟨"file", "g.txt", "java/good/g.txt", some "url2"⟩, .node [])]),
          (⟨"dir", "bad", "java/bad", none⟩, .err ⟨"boom"⟩)])
        "u" "r" true "parent" "my_kata" "java" (some "junit5")).2 ≠ none :=
  ⟨rfl, C2_fail_fast "u" "r" _ "java" (fun _ => some ⟨"java"⟩)
    (fun _ => [⟨⟨"java"⟩, some "junit5"⟩]) true "parent" "my_kata" "java"
    (some "junit5") rfl⟩

/-- C3 counterexample: the claim fails when the listed directory path itself
begins with a slash. Listing the root path `"/java"`, a directory entry
named `"sub"` is expanded as `"java/sub"` (all leading slashes stripped),
not as `"/java" + "/" + "sub"` as the claim requires for every `p`. -/
theorem C3_counterexample :
    listedPaths (.node [(⟨"dir", "sub", "/java/sub", none⟩, .node [])]) "/java"
        = ["/java", "java/sub"] ∧
      "java/sub" ≠ "/java" ++ "/" ++ "sub" :=
  ⟨rfl, by decide⟩

/-- C3 (amended): each directory entry named `n` discovered while listing
directory path `p` is expanded at the path `(p + "/" + n).lstrip('/')`; when
`p` is empty the child path is `n` itself (for entry names with no leading
slash), and whenever `p` is non-empty and has no leading slash the child
path is exactly `p + "/" + n`. -/
theorem C3_child_path (p n : String) :
    (p = "" → has_leading_slash n = false → sub_dir_path p n = n) ∧
      (p ≠ "" → has_leading_slash p = false → sub_dir_path p n = p ++ "/" ++ n) ∧
      (∀ (d : Dirent) (sub : RTree) (rest : List (Dirent × RTree)), d.type = "dir" →
        listedPathsEntries ((d, sub) :: rest) p
          = listedPaths sub (sub_dir_path p d.name) ++ listedPathsEntries rest p) := by
  refine ⟨?_, ?_, ?_⟩
  · intro h0 hn
    subst h0
    exact sub_dir_path_of_empty n hn
  · intro h0 hp
    exact sub_dir_path_of_no_slash p n h0 hp
  · intro d sub rest hd
    simp [listedPathsEntries, hd]

theorem C3_child_path_witness :
    sub_dir_path "" "sub" = "sub" ∧
      sub_dir_path "java" "sub" = "java" ++ "/" ++ "sub" :=
  ⟨(C3_child_path "" "sub").1 rfl (by decide),
   (C3_child_path "java" "sub").2.1 (by decide) (by decide)⟩

/-- C4: if the root listing contains only file entries (no subdirectories),
`file_urls` returns exactly those files converted 1:1, and only the root
listing call is made (no recursive calls); a root listing with zero entries
is the special case of an empty result with zero recursive calls and no
error. -/
theorem C4_flat_root (user repo : String) (entries : List (Dirent × RTree)) (p : String)
    (h : ∀ e ∈ entries, (Prod.fst e).type = "file") :
    get_files_in_dir user repo (.node entries) p = .ok (entries.map Prod.fst) ∧
      file_urls user repo (.node entries) p
        = .ok (format_result (entries.map Prod.fst)) ∧
      listedPaths (.node entries) p = [p] := by
  have hnd : ∀ e ∈ entries, (Prod.fst e).type ≠ "dir" := by
    intro e he
    rw [h e he]
    decide
  obtain ⟨hsub, hlp⟩ := no_dirs_flat user repo entries p hnd
  have hfil : (entries.map Prod.fst).filter (fun d => d.type = "file")
      = entries.map Prod.fst := by
    apply List.filter_eq_self.mpr
    intro d hd
    obtain ⟨e, he, hde⟩ := List.mem_map.mp hd
    rw [← hde]
    simp [h e he]
  have hg : get_files_in_dir user repo (.node entries) p = .ok (entries.map Prod.fst) := by
    simp [get_files_in_dir, hsub, hfil]
  refine ⟨hg, by simp [file_urls, hg], by simp [listedPaths, hlp]⟩

theorem C4_flat_root_witness :
    (get_files_in_dir "u" "r" (.node []) "java" = .ok [] ∧
      file_urls "u" "r" (.node []) "java" = .ok (format_result []) ∧
      listedPaths (.node []) "java" = ["java"]) ∧
    (get_files_in_dir "u" "r"
        (.node [(⟨"file", "a.txt", "java/a.txt", some "urlA"⟩, .node []),
                (⟨"file", "b.txt", "java/b.txt", some "urlB"⟩, .node [])]) "java"
        = .ok [⟨"file", "a.txt", "java/a.txt", some "urlA"⟩,
               ⟨"file", "b.txt", "java/b.txt", some "urlB"⟩] ∧
      file_urls "u" "r"
        (.node [(⟨"file", "a.txt", "java/a.txt", some "urlA"⟩, .node []),
                (⟨"file", "b.txt", "java/b.txt", some "urlB"⟩, .node [])]) "java"
        = .ok (format_result [⟨"file", "a.txt", "java/a.txt", some "urlA"⟩,
               ⟨"file", "b.txt", "java/b.txt", some "urlB"⟩]) ∧
      listedPaths
        (.node [(⟨"file", "a.txt", "java/a.txt", some "urlA"⟩, .node []),
                (⟨"file", "b.txt", "java/b.txt", some "urlB"⟩, .node [])]) "java"
        = ["java"]) :=
  ⟨C4_flat_root "u" "r" [] "java" (by intro e he; cases he),
   C4_flat_root "u" "r" _ "java" (by intro e he; fin_cases he <;> rfl)⟩

/-- C5: every element of a successful `file_urls` result is the 1:1
conversion of some reachable file-type entry — its `file_path` is that
entry's full path — and, for trees satisfying the API client's invariant
that file entries carry a present, non-empty download URL, its
`download_url` is present and non-empty. -/
theorem C5_output_shape (user repo : String) (t : RTree) (path : String)
    (hwf : (allFiles t).all file_url_ok = true) (h : hasErr t = false) :
    ∃ l, file_urls user repo t path = .ok l ∧
      ∀ fd ∈ l, ∃ ent ∈ allFiles t,
        fd = ⟨ent.path, ent.download_url⟩ ∧
        fd.file_path = ent.path ∧
        ∃ url, fd.download_url = some url ∧ url ≠ "" := by
  obtain ⟨l0, hl0, hperm⟩ := get_files_in_dir_ok_perm user repo t path h
  refine ⟨format_result l0, by simp [file_urls, hl0], ?_⟩
  intro fd hfd
  rw [format_result] at hfd
  obtain ⟨ent, hent, hfe⟩ := List.mem_map.mp hfd
  have hmem : ent ∈ allFiles t := hperm.mem_iff.mp hent
  have hok := List.all_eq_true.mp hwf ent hmem
  refine ⟨ent, hmem, hfe.symm, by rw [← hfe], ?_⟩
  cases hurl : ent.download_url with
  | none => rw [file_url_ok, hurl] at hok; cases hok
  | some url =>
    rw [file_url_ok, hurl] at hok
    have hne : url ≠ "" := by simpa using hok
    exact ⟨url, by rw [← hfe]; simp [hurl], hne⟩

theorem C5_output_shape_witness :
    (allFiles (.node [(⟨"file", "a.txt", "java/a.txt", some "urlA"⟩, .node []),
      (⟨"dir", "lib", "java/lib", none⟩,
        .node [(⟨"file", "b.jar", "java/lib/b.jar", some "urlB"⟩, .node [])])])).all
          file_url_ok = true ∧
    ∃ l, file_urls "u" "r"
      (.node [(⟨"file", "a.txt", "java/a.txt", some "urlA"⟩, .node []),
        (⟨"dir", "lib", "java/lib", none⟩,
          .node [(⟨"file", "b.jar", "java/lib/b.jar", some "urlB"⟩, .node [])])]) "java"
      = .ok l ∧
      ∀ fd ∈ l, ∃ ent ∈ allFiles
        (.node [(⟨"file", "a.txt", "java/a.txt", some "urlA"⟩, .node []),
          (⟨"dir", "lib", "java/lib", none⟩,
            .node [(⟨"file", "b.jar", "java/lib/b.jar", some "urlB"⟩, .node [])])]),
        fd = ⟨ent.path, ent.download_url⟩ ∧
        fd.file_path = ent.path ∧
        ∃ url, fd.download_url = some url ∧ url ≠ "" :=
  ⟨rfl, C5_output_shape "u" "r" _ "java" rfl rfl⟩

/-- C6 counterexample: no `TraversalError` wrapping exists. Two trees whose
failing listings occur while expanding different sub-paths (`"java/a"` and
`"java/b"`) both make `file_urls` propagate the very same unmodified
`RemoteLookupError` value, so the propagated error is not a wrapper carrying
the sub-path being expanded. -/
theorem C6_counterexample :
    file_urls "u" "r" (.node [(⟨"dir", "a", "java/a", none⟩, .err ⟨"boom"⟩)]) "java"
        = .error ⟨"boom"⟩ ∧
      file_urls "u" "r" (.node [(⟨"dir", "b", "java/b", none⟩, .err ⟨"boom"⟩)]) "java"
        = .error ⟨"boom"⟩ :=
  ⟨rfl, rfl⟩

/-- C6 (amended): whenever a `RemoteLookupError` occurs while expanding a
sub-path during the recursive traversal, that same `RemoteLookupError`
propagates unchanged to the top-level caller of `file_urls`: the error
returned is one of the errors raised by the tree's failing listings, with no
wrapping type and no added sub-path context. -/
theorem C6_error_unwrapped (user repo : String) (t : RTree) (p : String)
    (e : RemoteLookupError) (h : file_urls user repo t p = .error e) :
    e ∈ treeErrors t := by
  cases hge : get_files_in_dir user repo t p with
  | error e' =>
    have he : e' = e := by simpa [file_urls, hge] using h
    exact get_files_in_dir_err_mem user repo t p e (he ▸ hge)
  | ok l => simp [file_urls, hge] at h

theorem C6_error_unwrapped_witness :
    (⟨"boom"⟩ : RemoteLookupError) ∈
      treeErrors (.node [(⟨"dir", "c", "java/c", none⟩, .err ⟨"boom"⟩)]) :=
  C6_error_unwrapped "u" "r"
    (.node [(⟨"dir", "c", "java/c", none⟩, .err ⟨"boom"⟩)]) "java" ⟨"boom"⟩ rfl

/-- C7: the traversal terminates on every finite remote tree — it performs
exactly one listing call per reachable directory node; a directory whose
listing yields empty file and directory partitions returns the empty
sequence (the base case); and each recursive invocation strictly increases
the path depth (for slash-free, non-empty entry names under a path with no
leading slash). -/
theorem C7_terminates (user repo : String) (t : RTree) (p q n : String)
    (hq : has_leading_slash q = false) (hn0 : n ≠ "") (hn : n.data.count '/' = 0) :
    get_files_in_dir user repo (.node []) p = .ok [] ∧
      (listedPaths t p).length = numNodes t ∧
      pathDepth (sub_dir_path q n) = pathDepth q + 1 :=
  ⟨rfl, listedPaths_length t p, pathDepth_sub_dir_path q n hq hn0 hn⟩

theorem C7_terminates_witness :
    get_files_in_dir "u" "r" (.node []) "java" = .ok [] ∧
      (listedPaths (.node [(⟨"dir", "lib", "java/lib", none⟩,
        .node [(⟨"file", "b.jar", "java/lib/b.jar", some "urlB"⟩, .node [])])]) "java").length
        = numNodes (.node [(⟨"dir", "lib", "java/lib", none⟩,
          .node [(⟨"file", "b.jar", "java/lib/b.jar", some "urlB"⟩, .node [])])]) ∧
      pathDepth (sub_dir_path "java" "lib") = pathDepth "java" + 1 :=
  C7_terminates "u" "r" _ "java" "java" "lib" (by decide) (by decide) (by decide)

/-- C9: in every recursive (non-root) listing call of the traversal — every
listed path except the root's own — the `dir_path` argument has no leading
`'/'`, for any root path whatsoever, because each child path is built as
`parent + "/" + name` with all leading slashes stripped. -/
theorem C9_no_leading_slash (t : RTree) (p q : String)
    (hq : q ∈ (listedPaths t p).tail) : has_leading_slash q = false := by
  cases t with
  | err e => simp [listedPaths] at hq
  | node entries =>
    rw [listedPaths] at hq
    exact listedPathsEntries_no_slash entries p q (by simpa using hq)

theorem C9_no_leading_slash_witness :
    has_leading_slash "java/sub" = false :=
  C9_no_leading_slash
    (.node [(⟨"dir", "sub", "/java/sub", none⟩, .node [])]) "/java" "java/sub"
    (by decide)

/-- C10 counterexample: the kata name `"a\n"` contains the character `'\n'`,
which is outside `[_a-z]` (a special character the claim says is rejected),
yet — because Python's `$` also matches just before a string-final newline —
`re.match(r'^[_a-z]*$', 'a\n')` succeeds and `init_kata` with an existing
parent directory raises nothing at all: it runs to completion. -/
theorem C10_counterexample :
    (init_kata (fun _ => some ⟨"java"⟩) (fun _ => [⟨⟨"java"⟩, some "junit5"⟩])
        (.node []) "u" "r" true "parent" "a\n" "java" (some "junit5")).2 = none ∧
      '\n' ∈ ("a\n" : String).data ∧
      in_lower_or_underscore '\n' = false :=
  ⟨rfl, by decide, rfl⟩

/-- C10 (amended): for every `init_kata` call whose parent directory exists,
`InvalidKataName` is raised — before any template lookup, remote call, or
download — iff the kata name is empty, contains a space, or fails
`re.match(r'^[_a-z]*$', name)` under `re.match` semantics; non-empty names
consisting solely of lowercase letters and underscores are accepted, and
names containing any character outside `[_a-z]` are rejected, except that a
single newline ending the name is tolerated by `$`'s Python semantics. -/
theorem C10_validation (lang_get : String → Option KataLanguage)
    (templates_for : KataLanguage → List KataTemplate) (tree : RTree)
    (u r pd kn tl : String) (tn : Option String) :
    ((∃ r', (init_kata lang_get templates_for tree u r true pd kn tl tn).2
        = some (.invalidKataName kn r')) ↔
      (kn = "" ∨ ' ' ∈ kn.data ∨ re_match_lower kn = false)) ∧
    ((kn = "" ∨ ' ' ∈ kn.data ∨ re_match_lower kn = false) →
      (init_kata lang_get templates_for tree u r true pd kn tl tn).1 = []) ∧
    (kn ≠ "" → kn.data.all in_lower_or_underscore = true →
      validate_kata_name kn = .ok ()) ∧
    ((∃ c ∈ kn.data, in_lower_or_underscore c = false ∧ c ≠ '\n') →
      ∃ r', validate_kata_name kn = .error (.invalidKataName kn r')) := by
  refine ⟨init_kata_err_is_invalid_iff lang_get templates_for tree u r pd kn tl tn,
    init_kata_trace_empty_of_invalid lang_get templates_for tree u r pd kn tl tn,
    validate_ok_of_lower kn, ?_⟩
  intro ⟨c, hc, hbad, hnl⟩
  have hre := re_match_false_of_bad_char kn c hc hbad hnl
  obtain ⟨e, hv⟩ := (validate_err_iff kn).mpr (Or.inr (Or.inr hre))
  obtain ⟨r', hr⟩ := validate_err_shape kn e hv
  exact ⟨r', by rw [hv, hr]⟩

theorem C10_validation_witness :
    validate_kata_name "my_kata" = .ok () ∧
      (∃ r', validate_kata_name "special?char"
        = .error (.invalidKataName "special?char" r')) ∧
      (init_kata (fun _ => some ⟨"java"⟩) (fun _ => [⟨⟨"java"⟩, some "junit5"⟩])
        (.node []) "u" "r" true "parent" "" "java" (some "junit5")).1 = [] :=
  ⟨(C10_validation (fun _ => some ⟨"java"⟩) (fun _ => [⟨⟨"java"⟩, some "junit5"⟩])
      (.node []) "u" "r" "parent" "my_kata" "java" (some "junit5")).2.2.1
      (by decide) (by decide),
   (C10_validation (fun _ => some ⟨"java"⟩) (fun _ => [⟨⟨"java"⟩, some "junit5"⟩])
      (.node []) "u" "r" "parent" "special?char" "java" (some "junit5")).2.2.2
      ⟨'?', by decide, by decide, by decide⟩,
   (C10_validation (fun _ => some ⟨"java"⟩) (fun _ => [⟨⟨"java"⟩, some "junit5"⟩])
      (.node []) "u" "r" "parent" "" "java" (some "junit5")).2.1 (Or.inl rfl)⟩
